import Mathlib

/-
Verification of the SDI claim-adjudication rules engine.

Shallow embedding of the decision core of the repository:
  - app/utils/rules.py            (validate_gate, apply_policy_rules, finalize_payout)
  - app/services/ledger_review.py (extract_ledger_flags, the duplicate validate_gate)

Modelling conventions:
  - Python floats carrying money amounts are modelled as exact rationals.
  - Python strings are Lean strings; every string operation used by the code
    (lower, strip, substring containment, splitting) is re-implemented here by
    structural recursion over the character list, restricted to ASCII, which is
    all the engine and its fixed keyword tables use.
  - A charge is a Python dict with optional keys; optional string fields are
    modelled as Option String where none covers both a missing key and a None
    value (the code collapses the two with dict.get and the or-default idiom).
  - The amount field can also hold a non-string, non-numeric-free value; the
    PyAmount type models the cases the code distinguishes: a missing key, None,
    a number, or a string that the float builtin must parse.
  - The float builtin on a string is modelled for the plain decimal grammar
    (optional sign, digits, optional fractional part). Exponents, infinities
    and surrounding whitespace are treated as non-coercible; no claim
    exercises them.
  - round(x, 2) is modelled as exact round-half-to-even on rationals at two
    decimal places.
-/

/-! ## ASCII string primitives (structural recursion, kernel-reducible) -/

/-- Lower-case a single character, ASCII range only, as the engine only
compares against ASCII keyword tables. -/
def charLower (c : Char) : Char :=
  if 65 ≤ c.toNat ∧ c.toNat ≤ 90 then Char.ofNat (c.toNat + 32) else c

/-- Model of the Python str.lower method on the ASCII fragment. -/
def lowerStr (s : String) : String := ⟨s.data.map charLower⟩

/-- Whitespace characters recognised by the Python str.strip method and the
regex whitespace class, ASCII fragment. -/
def isPyWS (c : Char) : Bool :=
  c = ' ' || c = '\t' || c = '\n' || c = '\r' || c = '\x0b' || c = '\x0c'

/-- Drop leading and trailing whitespace from a character list. -/
def trimChars (l : List Char) : List Char :=
  ((l.dropWhile isPyWS).reverse.dropWhile isPyWS).reverse

/-- Model of the Python str.strip method with no arguments. -/
def trimStr (s : String) : String := ⟨trimChars s.data⟩

/-- Boolean test that the first list is a prefix of the second. -/
def isPrefB : List Char → List Char → Bool
  | [], _ => true
  | _ :: _, [] => false
  | a :: as, b :: bs => a = b && isPrefB as bs

/-- Boolean test that needle occurs contiguously inside hay; model of the
Python expression needle in hay on strings. -/
def containsSub (hay needle : List Char) : Bool :=
  if isPrefB needle hay then true
  else
    match hay with
    | [] => false
    | _ :: t => containsSub t needle

/-- String-level wrapper of containsSub. -/
def strContains (hay needle : String) : Bool := containsSub hay.data needle.data

/-- Split a character list at every character satisfying p, keeping empty
pieces, as the Python str.split with a separator does. -/
def splitOnPred (p : Char → Bool) : List Char → List (List Char)
  | [] => [[]]
  | c :: rest =>
    if p c then [] :: splitOnPred p rest
    else
      match splitOnPred p rest with
      | [] => [[c]]
      | h :: t => (c :: h) :: t

/-- Join words with single spaces. -/
def joinWords : List (List Char) → List Char
  | [] => []
  | [w] => w
  | w :: ws => w ++ ' ' :: joinWords ws

/-- Strict lexicographic order on character lists by code point, the order the
Python sorted builtin uses on strings. -/
def lexLt : List Char → List Char → Bool
  | [], [] => false
  | [], _ :: _ => true
  | _ :: _, [] => false
  | a :: as, b :: bs =>
    if a.toNat < b.toNat then true
    else if b.toNat < a.toNat then false
    else lexLt as bs

/-- String comparison used for sorting document names. -/
def strLtB (a b : String) : Bool := lexLt a.data b.data

/-- Insert a string into an already sorted list. -/
def strInsert (x : String) : List String → List String
  | [] => [x]
  | y :: ys => if strLtB x y then x :: y :: ys else y :: strInsert x ys

/-- Model of the Python sorted builtin on a list of strings. -/
def strSort : List String → List String
  | [] => []
  | x :: xs => strInsert x (strSort xs)

/-- ASCII digit test. -/
def isDigitB (c : Char) : Bool := 48 ≤ c.toNat && c.toNat ≤ 57

/-- Numeric value of a digit list, most significant first. -/
def natOfDigits (l : List Char) : Nat :=
  l.foldl (fun n c => 10 * n + (c.toNat - 48)) 0

/-! ## Python value modelling: amounts and the float builtin -/

/-- Parse a string with the float builtin, restricted to the plain decimal
grammar: optional sign, then digits with an optional fractional part, at least
one digit overall. Returns none when the string is not numerically coercible. -/
def parseFloat? (s : String) : Option ℚ :=
  let (neg, cs) :=
    match s.data with
    | '-' :: t => (true, t)
    | '+' :: t => (false, t)
    | l => (false, l)
  let ip := cs.takeWhile isDigitB
  let rest := cs.dropWhile isDigitB
  let mk : List Char → List Char → Option ℚ := fun ipart fpart =>
    if ipart.isEmpty ∧ fpart.isEmpty then none
    else
      let v : ℚ := (natOfDigits ipart : ℚ) + (natOfDigits fpart : ℚ) / (10 ^ fpart.length : ℚ)
      some (if neg then -v else v)
  match rest with
  | [] => mk ip []
  | '.' :: t => if (t.dropWhile isDigitB).isEmpty then mk ip (t.takeWhile isDigitB) else none
  | _ => none

/-- The value found under the amount key of a charge dict: the key can be
absent, hold None, hold a number, or hold a string. -/
inductive PyAmount where
  | missing : PyAmount
  | pyNone : PyAmount
  | num : ℚ → PyAmount
  | str : String → PyAmount
deriving DecidableEq

/-- Model of float(c.get("amount", 0) or 0): a missing key defaults to 0, a
falsy value (None, 0, empty string) is replaced by 0, and a remaining string
goes through the float builtin, which raises ValueError when the string is not
numerically coercible. -/
def coerceAmount : PyAmount → Except String ℚ
  | .missing => .ok 0
  | .pyNone => .ok 0
  | .num q => .ok q
  | .str s =>
    if s = "" then .ok 0
    else
      match parseFloat? s with
      | some q => .ok q
      | none => .error "ValueError: could not convert string to float"

/-- Exact round-half-to-even of a rational to an integer, the rounding the
Python round builtin specifies. -/
def roundHalfEven (x : ℚ) : ℤ :=
  let f := ⌊x⌋
  let r := x - (f : ℚ)
  if r < 1 / 2 then f
  else if 1 / 2 < r then f + 1
  else if f % 2 = 0 then f else f + 1

/-- Model of round(q, 2). -/
def round2 (q : ℚ) : ℚ := (roundHalfEven (q * 100) : ℚ) / 100

/-! ## rules.py: documents gate -/

/-- Required document kinds, rules.py line 4. -/
def REQ_DOCS : List String :=
  ["lease_addendum", "lease_agreement", "notification_to_tenant", "tenant_ledger"]

/-- The ledger-evidence record produced by extract_ledger_flags and consumed
by validate_gate. -/
structure LedgerFlags where
  first_month_rent_paid : Bool
  first_month_rent_evidence : String
  first_month_sdi_premium_paid : Bool
  first_month_sdi_premium_paid_evidence : String
deriving DecidableEq

/-- The details dict returned by validate_gate; field names follow the dict
keys of the source. -/
structure GateDetails where
  first_month_paid : Bool
  first_month_paid_evidence : String
  first_month_sdi_premium_paid : Bool
  first_month_sdi_premium_paid_evidence : String
  missing_documents : List String
  status : String
deriving DecidableEq

/-- validate_gate from rules.py lines 6 to 19. The documents_present dict is
modelled as its lookup function with the get-default False already applied. -/
def validate_gate (documents_present : String → Bool) (ledger : LedgerFlags) :
    Bool × GateDetails :=
  let missing := strSort (REQ_DOCS.filter (fun d => !(documents_present d)))
  let first_rent := ledger.first_month_rent_paid
  let first_sdi := ledger.first_month_sdi_premium_paid
  let approved := missing.isEmpty && first_rent && first_sdi
  (approved,
    { first_month_paid := first_rent
      first_month_paid_evidence := ledger.first_month_rent_evidence
      first_month_sdi_premium_paid := first_sdi
      first_month_sdi_premium_paid_evidence := ledger.first_month_sdi_premium_paid_evidence
      missing_documents := missing
      status := if approved then "Approved" else "Declined" })

/-! ## rules.py: policy helpers -/

/-- Damage-hint vocabulary, rules.py lines 23 to 26. -/
def DAMAGE_HINTS : List String :=
  ["stain", "hole", "burn", "tear", "ripple", "gouge", "scratch", "soiled",
   "excessive", "ruin", "broken", "damage", "beyond wear", "heavy odor", "pet urine"]

/-- Utility synonyms, rules.py line 28. -/
def UTIL_SYNONYMS : List String :=
  ["utility", "utilities", "water", "sewer", "gas", "electric", "power"]

/-- Rekey synonyms, rules.py line 29. -/
def REKEY_SYNONYMS : List String :=
  ["rekey", "locksmith", "lock change", "change locks"]

/-- Landscaping synonyms, rules.py line 30. -/
def LANDSCAPE_SYNONYMS : List String :=
  ["landscaping", "lawn", "yard", "grounds"]

/-- looks_beyond_wear from rules.py: any damage hint occurs in the lowered
description. The None-to-empty defaulting is applied by the caller model. -/
def looks_beyond_wear (desc : String) : Bool :=
  DAMAGE_HINTS.any (fun k => strContains (lowerStr desc) k)

/-- The lowered blob "cat desc" the three synonym helpers scan. -/
def catDescBlob (cat desc : String) : String := lowerStr (cat ++ " " ++ desc)

/-- is_util from rules.py. -/
def is_util (cat desc : String) : Bool :=
  UTIL_SYNONYMS.any (fun u => strContains (catDescBlob cat desc) u)

/-- is_rekey from rules.py. -/
def is_rekey (cat desc : String) : Bool :=
  REKEY_SYNONYMS.any (fun k => strContains (catDescBlob cat desc) k)

/-- is_landscape from rules.py. -/
def is_landscape (cat desc : String) : Bool :=
  LANDSCAPE_SYNONYMS.any (fun k => strContains (catDescBlob cat desc) k)

/-! ## rules.py: the charge model and apply_policy_rules -/

/-- A charge dict as apply_policy_rules reads it. Optional string fields are
none when the key is missing or holds None; the two boolean flags model
bool(c.get(..., False)). The description default differs between the paid
branch (plain get with empty default) and the main branch (get with or-empty);
both collapse to the same value here because a None description is modelled
as none. -/
structure Charge where
  category : Option String
  description : Option String
  amount : PyAmount
  status : Option String
  wear : Option String
  accelerated_moveout : Bool
  linked_to_occupancy : Bool
deriving DecidableEq

/-- The lowered status string, rules.py line 74. -/
def statusOf (c : Charge) : String := lowerStr (c.status.getD "")

/-- include_only_unpaid from rules.py lines 73 to 74. -/
def include_only_unpaid (c : Charge) : Bool :=
  statusOf c == "unpaid" || statusOf c == "overdue"

/-- The original category: (c.get("category") or "").lower().strip(). -/
def origCat (c : Charge) : String := trimStr (lowerStr (c.category.getD ""))

/-- The description with defaults applied. -/
def descOf (c : Charge) : String := c.description.getD ""

/-- The wear field: (c.get("wear") or "").lower().strip(). -/
def wearOf (c : Charge) : String := trimStr (lowerStr (c.wear.getD ""))

/-- Categories excluded outright by policy, rules.py line 88. -/
def HARD_EXCLUDED_CATS : List String :=
  ["non_refundable_fee", "benefit_program", "pet_damage", "lawn_vacant"]

/-- The hard-exclusion test of rules.py line 88, on the original category. -/
def isHardExcluded (c : Charge) : Bool := HARD_EXCLUDED_CATS.contains (origCat c)

/-- The normal-wear exclusion test of rules.py line 91, on the original
category. -/
def isNormalWear (c : Charge) : Bool :=
  (origCat c == "cleaning" || origCat c == "normal_wear") && wearOf c == "normal"

/-- Category normalisation by synonyms, rules.py lines 96 to 101, in source
order: rekey, then landscaping, then utilities, else unchanged. -/
def normCat (c : Charge) : String :=
  if is_rekey (origCat c) (descOf c) then "rekey"
  else if is_landscape (origCat c) (descOf c) then "landscaping"
  else if is_util (origCat c) (descOf c) then "unpaid_utilities"
  else origCat c

/-- An approved or excluded tuple (label, amount, reason). -/
abbrev Entry := String × ℚ × String

/-- The amount component of a tuple. -/
def entryAmount (e : Entry) : ℚ := e.2.1

/-- Sum of the amounts of a tuple list. -/
def entriesSum (l : List Entry) : ℚ := (l.map entryAmount).sum

/-- The running state of the charge loop: output lists built so far plus the
two running caps. -/
structure RulesState where
  approved : List Entry
  excluded : List Entry
  landscaping_used : ℚ
  rent_used : ℚ
deriving DecidableEq

/-- The cleaning branch, rules.py lines 106 to 111. -/
def cleaningStep (st : RulesState) (desc : String) (amt : ℚ) (wear : String) : RulesState :=
  if wear == "beyond" || (wear == "" && looks_beyond_wear desc) then
    { st with approved := st.approved ++ [("Cleaning – " ++ desc, amt, "Beyond normal wear and tear")] }
  else
    { st with excluded := st.excluded ++ [(desc, amt, "Unspecified/normal wear")] }

/-- The landscaping branch, rules.py lines 119 to 128. -/
def landscapingStep (st : RulesState) (desc : String) (amt : ℚ) : RulesState :=
  let cap := max 0 (min amt (500 - st.landscaping_used))
  if 0 < cap then
    { st with
      approved := st.approved ++ [("Landscaping – " ++ desc, cap, "Capped at $500")]
      excluded := st.excluded ++ (if cap < amt then [(desc, amt - cap, "Over $500 cap")] else [])
      landscaping_used := st.landscaping_used + cap }
  else
    { st with excluded := st.excluded ++ [(desc, amt, "Over $500 cap")] }

/-- The unpaid-rent branch, rules.py lines 136 to 145. -/
def unpaidRentStep (monthly_rent : ℚ) (st : RulesState) (desc : String) (amt : ℚ) : RulesState :=
  let cap := max 0 (min amt (monthly_rent - st.rent_used))
  if 0 < cap then
    { st with
      approved := st.approved ++ [("Unpaid Rent – " ++ desc, cap, "Capped at one month rent")]
      excluded := st.excluded ++ (if cap < amt then [(desc, amt - cap, "Over one month rent")] else [])
      rent_used := st.rent_used + cap }
  else
    { st with excluded := st.excluded ++ [(desc, amt, "Over one month rent")] }

/-- The lease-break branch, rules.py lines 148 to 157. -/
def leaseBreakStep (monthly_rent : ℚ) (st : RulesState) (desc : String) (amt : ℚ)
    (accelerated : Bool) : RulesState :=
  if accelerated then
    { st with approved := st.approved ++
        [("Lease Break Fee (Accelerated) – " ++ desc, amt, "Exception: accelerated move-out")] }
  else
    let cap := min amt monthly_rent
    { st with
      approved := st.approved ++ [("Lease Break Fee – " ++ desc, cap, "Capped at one month rent")]
      excluded := st.excluded ++ (if cap < amt then [(desc, amt - cap, "Over one month rent")] else []) }

/-- The prorated-rent branch, rules.py lines 160 to 166. -/
def proratedStep (st : RulesState) (desc : String) (amt : ℚ) (linked : Bool) : RulesState :=
  if linked then
    { st with approved := st.approved ++
        [("Prorated Rent – " ++ desc, amt, "Linked to occupancy/lease obligations")] }
  else
    { st with excluded := st.excluded ++ [(desc, amt, "Exclude unless clearly linked")] }

/-- The body of the charge loop of apply_policy_rules after the amount has
been coerced successfully: the payment-status filter, the two pre-synonym
exclusions, synonym normalisation, then the category dispatch, in source
order (rules.py lines 76 to 169). -/
def processChargeOk (monthly_rent : ℚ) (st : RulesState) (c : Charge) (amt : ℚ) : RulesState :=
  if !(include_only_unpaid c) then
    { st with excluded := st.excluded ++ [(descOf c, amt, "Paid/Not overdue")] }
  else if isHardExcluded c then
    { st with excluded := st.excluded ++ [(descOf c, amt, "Policy exclusion")] }
  else if isNormalWear c then
    { st with excluded := st.excluded ++ [(descOf c, amt, "Normal wear and tear")] }
  else
    let cat := normCat c
    if cat == "cleaning" then cleaningStep st (descOf c) amt (wearOf c)
    else if cat == "rekey" then
      { st with approved := st.approved ++ [("Rekey – " ++ descOf c, amt, "Move-out rekey")] }
    else if cat == "landscaping" then landscapingStep st (descOf c) amt
    else if cat == "utilities" || cat == "unpaid_utilities" then
      { st with approved := st.approved ++ [("Unpaid Utilities – " ++ descOf c, amt, "Covered")] }
    else if cat == "unpaid_rent" then unpaidRentStep monthly_rent st (descOf c) amt
    else if cat == "lease_break" || cat == "relisting_fee" || cat == "lease_break_fee" then
      leaseBreakStep monthly_rent st (descOf c) amt c.accelerated_moveout
    else if cat == "prorated_rent" then proratedStep st (descOf c) amt c.linked_to_occupancy
    else { st with excluded := st.excluded ++ [(descOf c, amt, "Unknown category (exclude)")] }

/-- One loop iteration including the amount coercion, which propagates the
ValueError of the float builtin. -/
def processCharge (monthly_rent : ℚ) (st : RulesState) (c : Charge) : Except String RulesState :=
  (coerceAmount c.amount).map (processChargeOk monthly_rent st c)

/-- The loop entry state: empty outputs, both running caps at zero. -/
def initState : RulesState :=
  { approved := [], excluded := [], landscaping_used := 0, rent_used := 0 }

/-- The charge loop of apply_policy_rules. -/
def runCharges (monthly_rent : ℚ) (st : RulesState) : List Charge → Except String RulesState
  | [] => .ok st
  | c :: cs =>
    match processCharge monthly_rent st c with
    | .error e => .error e
    | .ok st2 => runCharges monthly_rent st2 cs

/-- apply_policy_rules from rules.py lines 50 to 172: run the loop from the
initial state and round the approved total to two decimals. -/
def apply_policy_rules (charges : List Charge) (monthly_rent : ℚ) :
    Except String (List Entry × List Entry × ℚ) :=
  (runCharges monthly_rent initState charges).map fun st =>
    (st.approved, st.excluded, round2 (entriesSum st.approved))

/-- finalize_payout from rules.py lines 175 to 177; float(max_benefit or 0)
is modelled by treating an absent value as 0 (a present 0 is unchanged by the
or-default). -/
def finalize_payout (total_approved : ℚ) (max_benefit : Option ℚ) : ℚ :=
  round2 (min total_approved (match max_benefit with | none => 0 | some q => q))

/-! ## ledger_review.py: ledger text parsing -/

/-- Required files, ledger_review.py lines 17 to 22. -/
def REQUIRED_FILES : List String :=
  ["lease_addendum", "lease_agreement", "notification_to_tenant", "tenant_ledger"]

/-- Rent hint phrases, ledger_review.py line 35. -/
def RENT_HINTS : List String :=
  ["rent", "base rent", "monthly rent", "1st month rent", "first month rent"]

/-- SDI hint phrases, ledger_review.py line 36. -/
def SDI_HINTS : List String :=
  ["sdi", "security deposit insurance", "deposit insurance premium", "sdi premium"]

/-- Payment mention words, ledger_review.py line 37. -/
def PAID_HINTS : List String :=
  ["paid", "received", "collected", "posted", "credit"]

/-- normalize_text from ledger_review.py: collapse whitespace runs to single
spaces and strip the ends, realised as splitting into maximal non-whitespace
words and joining with single spaces. -/
def normalize_text (s : String) : String :=
  ⟨joinWords ((splitOnPred isPyWS s.data).filter (fun w => !w.isEmpty))⟩

/-- line_matches from ledger_review.py: some needle occurs in the lowered
line. -/
def lineMatches (line : String) (needles : List String) : Bool :=
  needles.any (fun k => strContains (lowerStr line) k)

/-- The money-token test bool(_MONEY.search(line)). The regex is
dollar-sign?, whitespace?, 1 to 3 digits, then comma-triple groups and a
cents part, both optional. Every part except the first digit block is
optional or may repeat zero times, so the regex has a match at some position
of the line exactly when the line contains a digit: at a digit position the
optional parts match empty, and conversely any match contains at least one
digit. Only the boolean of the search result is ever used. -/
def hasMoneyToken (line : String) : Bool := line.data.any isDigitB

/-- The non-empty stripped lines of the ledger text, ledger_review.py line
53. The splitlines builtin is modelled on newline separators; the engine is
fed plain newline-separated text. -/
def processedLines (text : String) : List String :=
  ((splitOnPred (fun ch => ch = '\n') text.data).map (fun l => trimStr ⟨l⟩)).filter
    (fun l => !(l == ""))

/-- One of the two found/evidence state pairs of the scan. -/
structure FoundState where
  found : Bool
  ev : String
deriving DecidableEq

/-- The strict phase-1 test for one hint family: a hint occurs and the line
additionally carries a money-shaped token or a payment word. -/
def strictMatch (hints : List String) (line : String) : Bool :=
  lineMatches line hints && (hasMoneyToken line || lineMatches line PAID_HINTS)

/-- Phase 1 of extract_ledger_flags, ledger_review.py lines 57 to 70: a
single pass updating the rent and SDI states, stopping once both are found. -/
def phase1 : List String → FoundState → FoundState → FoundState × FoundState
  | [], r, s => (r, s)
  | line :: rest, r, s =>
    let corro := hasMoneyToken line || lineMatches line PAID_HINTS
    let r2 := if !r.found && (lineMatches line RENT_HINTS && corro) then
        { found := true, ev := normalize_text line } else r
    let s2 := if !s.found && (lineMatches line SDI_HINTS && corro) then
        { found := true, ev := normalize_text line } else s
    if r2.found && s2.found then (r2, s2) else phase1 rest r2 s2

/-- Phase 2 of extract_ledger_flags, ledger_review.py lines 72 to 84: when
still not found, accept the first line merely containing a hint. -/
def fallbackScan (hints : List String) (lines : List String) (st : FoundState) : FoundState :=
  if st.found then st
  else
    match lines.find? (fun l => lineMatches l hints) with
    | some l => { found := true, ev := normalize_text l }
    | none => st

/-- extract_ledger_flags from ledger_review.py lines 51 to 91. The
lease_start_date parameter of the source is accepted and unused there; it is
omitted here. -/
def extract_ledger_flags (ledger_text : String) : LedgerFlags :=
  let lines := processedLines ledger_text
  let p := phase1 lines { found := false, ev := "" } { found := false, ev := "" }
  let r := fallbackScan RENT_HINTS lines p.1
  let s := fallbackScan SDI_HINTS lines p.2
  { first_month_rent_paid := r.found
    first_month_rent_evidence := r.ev
    first_month_sdi_premium_paid := s.found
    first_month_sdi_premium_paid_evidence := s.ev }

/-- The second copy of validate_gate, ledger_review.py lines 98 to 111,
byte-for-byte the same algorithm over REQUIRED_FILES. -/
def ledger_validate_gate (documents_present : String → Bool) (ledger : LedgerFlags) :
    Bool × GateDetails :=
  let missing := strSort (REQUIRED_FILES.filter (fun d => !(documents_present d)))
  let first_rent := ledger.first_month_rent_paid
  let first_sdi := ledger.first_month_sdi_premium_paid
  let approved := missing.isEmpty && first_rent && first_sdi
  (approved,
    { first_month_paid := first_rent
      first_month_paid_evidence := ledger.first_month_rent_evidence
      first_month_sdi_premium_paid := first_sdi
      first_month_sdi_premium_paid_evidence := ledger.first_month_sdi_premium_paid_evidence
      missing_documents := missing
      status := if approved then "Approved" else "Declined" })

/-! ## Derived notions used by the claim statements -/

/-- The coerced amount of a charge, 0 when coercion would raise. -/
def amtOf (c : Charge) : ℚ :=
  match coerceAmount c.amount with
  | .ok q => q
  | .error _ => 0

/-- True when the amount coercion of the charge does not raise. -/
def amountOk (c : Charge) : Bool :=
  match coerceAmount c.amount with
  | .ok _ => true
  | .error _ => false

/-- Sum of the coerced amounts of a charge list. -/
def chargesSum (l : List Charge) : ℚ := (l.map amtOf).sum

/-- A charge that reaches the landscaping branch: considered by the payment
filter, not hard-excluded, not normal-wear-excluded, normalised to
landscaping, with a coercible amount. -/
def landsOK (c : Charge) : Bool :=
  include_only_unpaid c && !isHardExcluded c && !isNormalWear c &&
    (normCat c == "landscaping") && amountOk c

/-- A charge that reaches the lease-break branch. -/
def leaseBreakOK (c : Charge) : Bool :=
  include_only_unpaid c && !isHardExcluded c && !isNormalWear c &&
    (normCat c == "lease_break" || normCat c == "relisting_fee" ||
      normCat c == "lease_break_fee") && amountOk c

/-- A charge that reaches the unpaid-rent branch. -/
def unpaidRentOK (c : Charge) : Bool :=
  include_only_unpaid c && !isHardExcluded c && !isNormalWear c &&
    (normCat c == "unpaid_rent") && amountOk c

/-- The hint-only scan that phase 1 is equivalent to for a single hint
family: when not already found, take the first strictly matching line. -/
def strictScan (hints : List String) : List String → FoundState → FoundState
  | [], st => st
  | line :: rest, st =>
    strictScan hints rest
      (if !st.found && strictMatch hints line then { found := true, ev := normalize_text line }
       else st)

/-! ## Concrete charges used by witnesses and counterexamples -/

/-- A landscaping charge of 300. -/
def landChargeA : Charge :=
  { category := some "landscaping", description := some "front hedge work",
    amount := PyAmount.num 300, status := some "unpaid", wear := none,
    accelerated_moveout := false, linked_to_occupancy := false }

/-- A landscaping charge of 400. -/
def landChargeB : Charge :=
  { category := some "landscaping", description := some "tree removal",
    amount := PyAmount.num 400, status := some "overdue", wear := none,
    accelerated_moveout := false, linked_to_occupancy := false }

/-- A utilities charge whose amount, 0.0451, is not a whole number of
cents. -/
def centCharge : Charge :=
  { category := some "utilities", description := some "water bill",
    amount := PyAmount.num ((451 : ℚ) / 10000), status := some "unpaid", wear := none,
    accelerated_moveout := false, linked_to_occupancy := false }

/-- A charge whose amount is a truthy non-numeric string. -/
def badAmtCharge : Charge :=
  { category := some "cleaning", description := some "carpet stain",
    amount := PyAmount.str "abc", status := some "unpaid", wear := some "beyond",
    accelerated_moveout := false, linked_to_occupancy := false }

/-- A hard-excluded charge whose description matches rekey, landscaping and
utility synonyms. -/
def hardCharge : Charge :=
  { category := some "pet_damage", description := some "rekey lawn water damage",
    amount := PyAmount.num 120, status := some "unpaid", wear := none,
    accelerated_moveout := false, linked_to_occupancy := false }

/-- A cleaning charge with wear marked normal. -/
def normalWearCharge : Charge :=
  { category := some "cleaning", description := some "carpet stain removal",
    amount := PyAmount.num 80, status := some "overdue", wear := some "Normal",
    accelerated_moveout := false, linked_to_occupancy := false }

/-- A non-accelerated lease-break charge of 900. -/
def leaseBreakCharge : Charge :=
  { category := some "lease_break", description := some "early termination",
    amount := PyAmount.num 900, status := some "unpaid", wear := none,
    accelerated_moveout := false, linked_to_occupancy := false }

/-- An accelerated lease-break charge of 2500. -/
def accelCharge : Charge :=
  { category := some "lease_break_fee", description := some "accelerated exit",
    amount := PyAmount.num 2500, status := some "unpaid", wear := none,
    accelerated_moveout := true, linked_to_occupancy := false }

/-- An unpaid-rent charge of 700. -/
def rentCharge : Charge :=
  { category := some "unpaid_rent", description := some "last month",
    amount := PyAmount.num 700, status := some "unpaid", wear := none,
    accelerated_moveout := false, linked_to_occupancy := false }

/-- A paid charge, filtered out by the payment-status check. -/
def paidCharge : Charge :=
  { category := some "cleaning", description := some "old invoice",
    amount := PyAmount.num 50, status := some "paid", wear := none,
    accelerated_moveout := false, linked_to_occupancy := false }

/-- Decidable equality for results of the fallible engine entry points. -/
instance {ε α : Type} [DecidableEq ε] [DecidableEq α] : DecidableEq (Except ε α) := fun a b =>
  match a, b with
  | .error x, .error y =>
    if h : x = y then .isTrue (by rw [h]) else .isFalse (fun hc => h (Except.error.inj hc))
  | .error _, .ok _ => .isFalse (fun hc => Except.noConfusion hc)
  | .ok _, .error _ => .isFalse (fun hc => Except.noConfusion hc)
  | .ok x, .ok y =>
    if h : x = y then .isTrue (by rw [h]) else .isFalse (fun hc => h (Except.ok.inj hc))

/-! ## Basic lemmas about the embedding -/

theorem entriesSum_nil : entriesSum [] = 0 := rfl

theorem entriesSum_cons (e : Entry) (l : List Entry) :
    entriesSum (e :: l) = entryAmount e + entriesSum l := by
  simp [entriesSum]

theorem entriesSum_append (l1 l2 : List Entry) :
    entriesSum (l1 ++ l2) = entriesSum l1 + entriesSum l2 := by
  simp [entriesSum]

theorem chargesSum_nil : chargesSum [] = 0 := rfl

theorem chargesSum_cons (c : Charge) (l : List Charge) :
    chargesSum (c :: l) = amtOf c + chargesSum l := by
  simp [chargesSum]

theorem chargesSum_nonneg (l : List Charge) (h : ∀ c ∈ l, 0 ≤ amtOf c) :
    0 ≤ chargesSum l := by
  refine List.sum_nonneg ?_
  intro x hx
  obtain ⟨c, hc, rfl⟩ := List.mem_map.mp hx
  exact h c hc

theorem coerceAmount_eq_ok (c : Charge) (h : amountOk c = true) :
    coerceAmount c.amount = .ok (amtOf c) := by
  unfold amountOk at h
  unfold amtOf
  cases hc : coerceAmount c.amount with
  | ok q => rfl
  | error e => rw [hc] at h; simp at h

theorem processCharge_eq_ok (r : ℚ) (st : RulesState) (c : Charge) (h : amountOk c = true) :
    processCharge r st c = .ok (processChargeOk r st c (amtOf c)) := by
  unfold processCharge
  rw [coerceAmount_eq_ok c h]
  rfl

theorem round2_cent (n : ℤ) : round2 ((n : ℚ) / 100) = (n : ℚ) / 100 := by
  have hx : (n : ℚ) / 100 * 100 = (n : ℚ) := by field_simp
  rw [round2, roundHalfEven, hx]
  norm_num

/-! ## Branch characterisation lemmas for processChargeOk -/

theorem processChargeOk_paid (r : ℚ) (st : RulesState) (c : Charge) (amt : ℚ)
    (h : include_only_unpaid c = false) :
    processChargeOk r st c amt =
      { st with excluded := st.excluded ++ [(descOf c, amt, "Paid/Not overdue")] } := by
  unfold processChargeOk
  rw [h]
  simp

theorem processChargeOk_hard (r : ℚ) (st : RulesState) (c : Charge) (amt : ℚ)
    (h1 : include_only_unpaid c = true) (h2 : isHardExcluded c = true) :
    processChargeOk r st c amt =
      { st with excluded := st.excluded ++ [(descOf c, amt, "Policy exclusion")] } := by
  unfold processChargeOk
  rw [h1, h2]
  simp

theorem processChargeOk_normalwear (r : ℚ) (st : RulesState) (c : Charge) (amt : ℚ)
    (h1 : include_only_unpaid c = true) (h2 : isHardExcluded c = false)
    (h3 : isNormalWear c = true) :
    processChargeOk r st c amt =
      { st with excluded := st.excluded ++ [(descOf c, amt, "Normal wear and tear")] } := by
  unfold processChargeOk
  rw [h1, h2, h3]
  simp

theorem landsOK_parts (c : Charge) (h : landsOK c = true) :
    include_only_unpaid c = true ∧ isHardExcluded c = false ∧ isNormalWear c = false ∧
      normCat c = "landscaping" ∧ amountOk c = true := by
  unfold landsOK at h
  simp only [Bool.and_eq_true, Bool.not_eq_true', beq_iff_eq] at h
  exact ⟨h.1.1.1.1, h.1.1.1.2, h.1.1.2, h.1.2, h.2⟩

theorem leaseBreakOK_parts (c : Charge) (h : leaseBreakOK c = true) :
    include_only_unpaid c = true ∧ isHardExcluded c = false ∧ isNormalWear c = false ∧
      (normCat c = "lease_break" ∨ normCat c = "relisting_fee" ∨ normCat c = "lease_break_fee") ∧
      amountOk c = true := by
  unfold leaseBreakOK at h
  simp only [Bool.and_eq_true, Bool.or_eq_true, Bool.not_eq_true', beq_iff_eq] at h
  exact ⟨h.1.1.1.1, h.1.1.1.2, h.1.1.2, by tauto, h.2⟩

theorem unpaidRentOK_parts (c : Charge) (h : unpaidRentOK c = true) :
    include_only_unpaid c = true ∧ isHardExcluded c = false ∧ isNormalWear c = false ∧
      normCat c = "unpaid_rent" ∧ amountOk c = true := by
  unfold unpaidRentOK at h
  simp only [Bool.and_eq_true, Bool.not_eq_true', beq_iff_eq] at h
  exact ⟨h.1.1.1.1, h.1.1.1.2, h.1.1.2, h.1.2, h.2⟩

theorem processChargeOk_landscaping (r : ℚ) (st : RulesState) (c : Charge) (amt : ℚ)
    (h : landsOK c = true) :
    processChargeOk r st c amt = landscapingStep st (descOf c) amt := by
  obtain ⟨h1, h2, h3, h4, _⟩ := landsOK_parts c h
  unfold processChargeOk
  rw [h1, h2, h3, h4]
  simp

theorem processChargeOk_unpaidRent (r : ℚ) (st : RulesState) (c : Charge) (amt : ℚ)
    (h : unpaidRentOK c = true) :
    processChargeOk r st c amt = unpaidRentStep r st (descOf c) amt := by
  obtain ⟨h1, h2, h3, h4, _⟩ := unpaidRentOK_parts c h
  unfold processChargeOk
  rw [h1, h2, h3, h4]
  simp

theorem processChargeOk_leaseBreak (r : ℚ) (st : RulesState) (c : Charge) (amt : ℚ)
    (h : leaseBreakOK c = true) :
    processChargeOk r st c amt =
      leaseBreakStep r st (descOf c) amt c.accelerated_moveout := by
  obtain ⟨h1, h2, h3, h4, _⟩ := leaseBreakOK_parts c h
  unfold processChargeOk
  rcases h4 with h4 | h4 | h4 <;> rw [h1, h2, h3, h4] <;> simp

/-! ## Totality of the loop for coercible amounts -/

theorem runCharges_ok_of_amountOk (r : ℚ) (l : List Charge) :
    ∀ st : RulesState, (∀ c ∈ l, amountOk c = true) → ∃ st2, runCharges r st l = .ok st2 := by
  induction l with
  | nil => intro st _; exact ⟨st, rfl⟩
  | cons c cs ih =>
    intro st h
    have hc := h c (List.mem_cons_self c cs)
    have hcs : ∀ x ∈ cs, amountOk x = true := fun x hx => h x (List.mem_cons_of_mem c hx)
    obtain ⟨st2, hst2⟩ := ih (processChargeOk r st c (amtOf c)) hcs
    exact ⟨st2, by rw [runCharges, processCharge_eq_ok r st c hc]; exact hst2⟩

/-- C3 counterexample: a single charge whose amount is the truthy non-numeric
string abc makes apply_policy_rules raise the ValueError of the float builtin
instead of returning a normal result. -/
theorem c3_counterexample :
    apply_policy_rules [badAmtCharge] 1000 =
      .error "ValueError: could not convert string to float" := by decide

/-- C3 (amended): apply_policy_rules returns a normal result whenever every
amount is missing, None, the empty string or a numerically coercible value; a
missing, None or empty-string amount is treated as 0. A truthy non-coercible
amount instead raises, refuting the original claim. -/
theorem apply_rules_graceful_c3 (charges : List Charge) (r : ℚ)
    (h : ∀ c ∈ charges, amountOk c = true) :
    (∃ res, apply_policy_rules charges r = .ok res) ∧
    (∀ c : Charge,
      (c.amount = PyAmount.missing ∨ c.amount = PyAmount.pyNone ∨ c.amount = PyAmount.str "") →
      amountOk c = true ∧ amtOf c = 0) := by
  constructor
  · obtain ⟨st2, hst2⟩ := runCharges_ok_of_amountOk r charges initState h
    exact ⟨_, by unfold apply_policy_rules; rw [hst2]; rfl⟩
  · intro c hc
    unfold amountOk amtOf
    rcases hc with hc | hc | hc <;> rw [hc] <;> exact ⟨rfl, rfl⟩

/-- C3 witness: a plain numeric charge list satisfies the hypothesis and gets
a normal result. -/
theorem c3_witness :
    (∃ res, apply_policy_rules [landChargeA] 0 = .ok res) ∧
    (∀ c : Charge,
      (c.amount = PyAmount.missing ∨ c.amount = PyAmount.pyNone ∨ c.amount = PyAmount.str "") →
      amountOk c = true ∧ amtOf c = 0) :=
  apply_rules_graceful_c3 [landChargeA] 0 (by decide)

/-- C8: finalize_payout is round(min(total, max_benefit or 0), 2), total over
all rational inputs; an absent benefit acts as 0; any present benefit below
the total, negative included, is a hard cap; the two worked examples of the
spec hold, and a negative benefit drives the payout below the total and below
zero. -/
theorem finalize_payout_c8 :
    (∀ (tot : ℚ) (mb : Option ℚ),
      finalize_payout tot mb =
        round2 (min tot (match mb with | none => 0 | some q => q))) ∧
    (∀ (tot q : ℚ), q ≤ tot → finalize_payout tot (some q) = round2 q) ∧
    finalize_payout 1200 (some 1000) = 1000 ∧
    finalize_payout 800 (some 1000) = 800 ∧
    finalize_payout 100 (some (-50)) = -50 ∧
    finalize_payout 100 (some (-50)) < 0 ∧
    finalize_payout 100 (some (-50)) < 100 := by
  have h1000 : round2 (1000 : ℚ) = 1000 := by
    have h := round2_cent 100000; norm_num at h; exact h
  have h800 : round2 (800 : ℚ) = 800 := by
    have h := round2_cent 80000; norm_num at h; exact h
  have hm50 : round2 (-50 : ℚ) = -50 := by
    have h := round2_cent (-5000); norm_num at h; exact h
  have e1 : finalize_payout 1200 (some 1000) = 1000 := by
    unfold finalize_payout
    rw [show min (1200 : ℚ) 1000 = 1000 by norm_num]
    exact h1000
  have e2 : finalize_payout 800 (some 1000) = 800 := by
    unfold finalize_payout
    rw [show min (800 : ℚ) 1000 = 800 by norm_num]
    exact h800
  have e3 : finalize_payout 100 (some (-50)) = -50 := by
    unfold finalize_payout
    rw [show min (100 : ℚ) (-50) = -50 by norm_num]
    exact hm50
  refine ⟨fun tot mb => rfl, fun tot q h => ?_, e1, e2, e3, by rw [e3]; norm_num,
    by rw [e3]; norm_num⟩
  unfold finalize_payout
  rw [min_eq_right h]

/-- C8 witness for the capped conjunct at a concrete input. -/
theorem c8_witness : finalize_payout 300 (some 200) = round2 200 :=
  finalize_payout_c8.2.1 300 200 (by norm_num)

/-- C4: on a considered (unpaid or overdue) charge, a hard-excluded original
category is excluded with reason Policy exclusion, and an original category of
cleaning or normal_wear with wear normal is excluded with reason Normal wear
and tear, both independently of the description, so before any synonym
re-categorisation could apply. -/
theorem pre_synonym_exclusions_c4 (r : ℚ) (st : RulesState) (c : Charge)
    (hs : include_only_unpaid c = true) (ha : amountOk c = true) :
    (origCat c ∈ HARD_EXCLUDED_CATS →
      processCharge r st c =
        .ok { st with excluded := st.excluded ++ [(descOf c, amtOf c, "Policy exclusion")] }) ∧
    ((origCat c = "cleaning" ∨ origCat c = "normal_wear") → wearOf c = "normal" →
      processCharge r st c =
        .ok { st with excluded := st.excluded ++ [(descOf c, amtOf c, "Normal wear and tear")] }) := by
  constructor
  · intro hmem
    have h2 : isHardExcluded c = true := by
      simp only [HARD_EXCLUDED_CATS, List.mem_cons, List.not_mem_nil, or_false] at hmem
      unfold isHardExcluded
      rcases hmem with h | h | h | h <;> rw [h] <;> decide
    rw [processCharge_eq_ok r st c ha, processChargeOk_hard r st c _ hs h2]
  · intro horig hwear
    have h2 : isHardExcluded c = false := by
      unfold isHardExcluded
      rcases horig with h | h <;> rw [h] <;> decide
    have h3 : isNormalWear c = true := by
      unfold isNormalWear
      rcases horig with h | h <;> rw [h, hwear] <;> decide
    rw [processCharge_eq_ok r st c ha, processChargeOk_normalwear r st c _ hs h2 h3]

/-- C4 witness: a pet_damage charge whose description matches rekey,
landscaping and utility synonyms is still policy-excluded, and a cleaning
charge with wear Normal is excluded as normal wear. -/
theorem c4_witness :
    processCharge 1000 initState hardCharge =
      .ok { initState with excluded := initState.excluded ++
        [(descOf hardCharge, amtOf hardCharge, "Policy exclusion")] } ∧
    processCharge 1000 initState normalWearCharge =
      .ok { initState with excluded := initState.excluded ++
        [(descOf normalWearCharge, amtOf normalWearCharge, "Normal wear and tear")] } :=
  ⟨(pre_synonym_exclusions_c4 1000 initState hardCharge (by decide) (by decide)).1 (by decide),
   (pre_synonym_exclusions_c4 1000 initState normalWearCharge (by decide) (by decide)).2
     (Or.inl (by decide)) (by decide)⟩

/-! ## Lease-break branch lemmas -/

theorem leaseBreakStep_nonaccel (r : ℚ) (st : RulesState) (d : String) (a : ℚ) :
    leaseBreakStep r st d a false =
      { st with
        approved := st.approved ++ [("Lease Break Fee – " ++ d, min a r, "Capped at one month rent")]
        excluded := st.excluded ++
          (if min a r < a then [(d, a - min a r, "Over one month rent")] else []) } := by
  simp [leaseBreakStep]

theorem leaseBreakStep_accel (r : ℚ) (st : RulesState) (d : String) (a : ℚ) :
    leaseBreakStep r st d a true =
      { st with approved := st.approved ++
        [("Lease Break Fee (Accelerated) – " ++ d, a, "Exception: accelerated move-out")] } := by
  simp [leaseBreakStep]

theorem leaseBreakStep_preserves (r : ℚ) (st : RulesState) (d : String) (a : ℚ) (acc : Bool) :
    (leaseBreakStep r st d a acc).rent_used = st.rent_used ∧
    (leaseBreakStep r st d a acc).landscaping_used = st.landscaping_used := by
  unfold leaseBreakStep
  cases acc <;> simp

theorem landscapingStep_exhausted (st : RulesState) (d : String) (a : ℚ)
    (h : 500 ≤ st.landscaping_used) :
    landscapingStep st d a = { st with excluded := st.excluded ++ [(d, a, "Over $500 cap")] } := by
  have hc : max 0 (min a (500 - st.landscaping_used)) = 0 :=
    max_eq_left (le_trans (min_le_right _ _) (by linarith))
  simp only [landscapingStep]
  rw [hc]
  norm_num

theorem unpaidRentStep_exhausted (r : ℚ) (st : RulesState) (d : String) (a : ℚ)
    (h : r ≤ st.rent_used) :
    unpaidRentStep r st d a =
      { st with excluded := st.excluded ++ [(d, a, "Over one month rent")] } := by
  have hc : max 0 (min a (r - st.rent_used)) = 0 :=
    max_eq_left (le_trans (min_le_right _ _) (by linarith))
  simp only [unpaidRentStep]
  rw [hc]
  norm_num

theorem amtOf_num (c : Charge) (b : ℚ) (h : c.amount = PyAmount.num b) : amtOf c = b := by
  unfold amtOf coerceAmount
  rw [h]

theorem amountOk_num (c : Charge) (b : ℚ) (h : c.amount = PyAmount.num b) : amountOk c = true := by
  unfold amountOk coerceAmount
  rw [h]

/-! ## Running the loop over a block of lease-break charges -/

theorem runCharges_leaseBreaks (r : ℚ) (lbs : List Charge) :
    ∀ st : RulesState, (∀ x ∈ lbs, leaseBreakOK x = true) →
    ∃ stm, runCharges r st lbs = .ok stm ∧ stm.rent_used = st.rent_used ∧
      stm.landscaping_used = st.landscaping_used := by
  induction lbs with
  | nil => intro st _; exact ⟨st, rfl, rfl, rfl⟩
  | cons x xs ih =>
    intro st h
    have hx := h x (List.mem_cons_self x xs)
    have hxs : ∀ y ∈ xs, leaseBreakOK y = true := fun y hy => h y (List.mem_cons_of_mem x hy)
    have hA := (leaseBreakOK_parts x hx).2.2.2.2
    obtain ⟨stm, h1, h2, h3⟩ := ih (leaseBreakStep r st (descOf x) (amtOf x) x.accelerated_moveout) hxs
    have hpres := leaseBreakStep_preserves r st (descOf x) (amtOf x) x.accelerated_moveout
    refine ⟨stm, ?_, by rw [h2, hpres.1], by rw [h3, hpres.2]⟩
    rw [runCharges, processCharge_eq_ok r st x hA, processChargeOk_leaseBreak r st x _ hx]
    exact h1

theorem runCharges_append_ok (r : ℚ) (l1 l2 : List Charge) :
    ∀ st stm : RulesState, runCharges r st l1 = .ok stm →
      runCharges r st (l1 ++ l2) = runCharges r stm l2 := by
  induction l1 with
  | nil =>
    intro st stm h
    rw [runCharges] at h
    cases h
    rfl
  | cons c cs ih =>
    intro st stm h
    rw [runCharges] at h
    rw [List.cons_append, runCharges]
    cases hp : processCharge r st c with
    | error e => rw [hp] at h; cases h
    | ok st2 =>
      rw [hp] at h
      exact ih st2 stm h

/-- C5: a block of lease-break, relisting-fee or lease-break-fee charges never
changes the running rent_used (nor landscaping_used) state, so an unpaid_rent
charge processed after the block is capped by the unpaid-rent step against a
state whose rent_used is still the original one; and an accelerated lease-break
charge is approved for its full amount, uncapped, with reason Exception:
accelerated move-out. -/
theorem lease_break_frame_c5 (r : ℚ) (st : RulesState) (lbs : List Charge) (c : Charge)
    (hlbs : ∀ x ∈ lbs, leaseBreakOK x = true) (hc : unpaidRentOK c = true) :
    (∃ stm, runCharges r st lbs = .ok stm ∧ stm.rent_used = st.rent_used ∧
      stm.landscaping_used = st.landscaping_used ∧
      runCharges r st (lbs ++ [c]) = .ok (unpaidRentStep r stm (descOf c) (amtOf c))) ∧
    (∀ (st2 : RulesState) (x : Charge) (b : ℚ),
      leaseBreakOK x = true → x.accelerated_moveout = true → x.amount = PyAmount.num b →
      processCharge r st2 x = .ok { st2 with approved := st2.approved ++
        [("Lease Break Fee (Accelerated) – " ++ descOf x, b, "Exception: accelerated move-out")] }) := by
  constructor
  · obtain ⟨stm, h1, h2, h3⟩ := runCharges_leaseBreaks r lbs st hlbs
    refine ⟨stm, h1, h2, h3, ?_⟩
    rw [runCharges_append_ok r lbs [c] st stm h1, runCharges,
      processCharge_eq_ok r stm c (unpaidRentOK_parts c hc).2.2.2.2,
      processChargeOk_unpaidRent r stm c _ hc]
    rfl
  · intro st2 x b hx hacc hb
    rw [processCharge_eq_ok r st2 x (amountOk_num x b hb),
      processChargeOk_leaseBreak r st2 x _ hx, hacc, leaseBreakStep_accel,
      amtOf_num x b hb]

/-- C5 witness at concrete charges: two lease-break charges before an
unpaid-rent charge, and the accelerated conjunct instantiated. -/
theorem c5_witness :
    (∃ stm, runCharges 1000 initState [leaseBreakCharge, accelCharge] = .ok stm ∧
      stm.rent_used = initState.rent_used ∧
      stm.landscaping_used = initState.landscaping_used ∧
      runCharges 1000 initState ([leaseBreakCharge, accelCharge] ++ [rentCharge]) =
        .ok (unpaidRentStep 1000 stm (descOf rentCharge) (amtOf rentCharge))) ∧
    (∀ (st2 : RulesState) (x : Charge) (b : ℚ),
      leaseBreakOK x = true → x.accelerated_moveout = true → x.amount = PyAmount.num b →
      processCharge 1000 st2 x = .ok { st2 with approved := st2.approved ++
        [("Lease Break Fee (Accelerated) – " ++ descOf x, b, "Exception: accelerated move-out")] }) :=
  lease_break_frame_c5 1000 initState [leaseBreakCharge, accelCharge] rentCharge
    (by decide) (by decide)

/-- C9: a considered non-accelerated lease-break charge always emits an
approved tuple of amount min(amount, monthly_rent) with reason Capped at one
month rent; this cap has no floor at zero, so a monthly_rent of zero or less
makes the emitted approved amount nonpositive, whereas the landscaping and
unpaid-rent branches, whose caps are floored at zero, produce only an
exclusion when their remaining cap is exhausted. -/
theorem lease_break_no_floor_c9 (r : ℚ) (st : RulesState) (c : Charge)
    (h : leaseBreakOK c = true) (hacc : c.accelerated_moveout = false) :
    (processCharge r st c = .ok { st with
      approved := st.approved ++
        [("Lease Break Fee – " ++ descOf c, min (amtOf c) r, "Capped at one month rent")]
      excluded := st.excluded ++
        (if min (amtOf c) r < amtOf c then
          [(descOf c, amtOf c - min (amtOf c) r, "Over one month rent")] else []) }) ∧
    (r ≤ 0 → 0 ≤ amtOf c → min (amtOf c) r ≤ 0) ∧
    (∀ c2, landsOK c2 = true → 500 ≤ st.landscaping_used →
      processCharge r st c2 =
        .ok { st with excluded := st.excluded ++ [(descOf c2, amtOf c2, "Over $500 cap")] }) ∧
    (∀ c3, unpaidRentOK c3 = true → r ≤ st.rent_used →
      processCharge r st c3 =
        .ok { st with excluded := st.excluded ++ [(descOf c3, amtOf c3, "Over one month rent")] }) := by
  refine ⟨?_, fun hr _ => le_trans (min_le_right _ _) hr, ?_, ?_⟩
  · rw [processCharge_eq_ok r st c (leaseBreakOK_parts c h).2.2.2.2,
      processChargeOk_leaseBreak r st c _ h, hacc, leaseBreakStep_nonaccel]
  · intro c2 h2 hlu
    rw [processCharge_eq_ok r st c2 (landsOK_parts c2 h2).2.2.2.2,
      processChargeOk_landscaping r st c2 _ h2, landscapingStep_exhausted st _ _ hlu]
  · intro c3 h3 hru
    rw [processCharge_eq_ok r st c3 (unpaidRentOK_parts c3 h3).2.2.2.2,
      processChargeOk_unpaidRent r st c3 _ h3, unpaidRentStep_exhausted r st _ _ hru]

/-- C9 witness at monthly_rent zero: the lease-break charge still has an
approved tuple emitted (of amount min(900, 0)), and the contrast conjuncts are
instantiated. -/
theorem c9_witness :
    (processCharge 0 initState leaseBreakCharge = .ok { initState with
      approved := initState.approved ++
        [("Lease Break Fee – " ++ descOf leaseBreakCharge, min (amtOf leaseBreakCharge) 0,
          "Capped at one month rent")]
      excluded := initState.excluded ++
        (if min (amtOf leaseBreakCharge) 0 < amtOf leaseBreakCharge then
          [(descOf leaseBreakCharge, amtOf leaseBreakCharge - min (amtOf leaseBreakCharge) 0,
            "Over one month rent")] else []) }) ∧
    ((0 : ℚ) ≤ 0 → 0 ≤ amtOf leaseBreakCharge → min (amtOf leaseBreakCharge) 0 ≤ 0) ∧
    (∀ c2, landsOK c2 = true → 500 ≤ initState.landscaping_used →
      processCharge 0 initState c2 =
        .ok { initState with excluded := initState.excluded ++
          [(descOf c2, amtOf c2, "Over $500 cap")] }) ∧
    (∀ c3, unpaidRentOK c3 = true → (0 : ℚ) ≤ initState.rent_used →
      processCharge 0 initState c3 =
        .ok { initState with excluded := initState.excluded ++
          [(descOf c3, amtOf c3, "Over one month rent")] }) :=
  lease_break_no_floor_c9 0 initState leaseBreakCharge (by decide) (by decide)

/-! ## Arithmetic of running caps -/

theorem add_min_cap (u a B : ℚ) (ha : 0 ≤ a) (hu : u ≤ B) :
    u + min a (B - u) = min (u + a) B := by
  rcases le_total a (B - u) with h | h
  · rw [min_eq_left h, min_eq_left (by linarith)]
  · rw [min_eq_right h, min_eq_right (by linarith)]; ring

theorem min_cap_collapse (x s B : ℚ) (hs : 0 ≤ s) :
    min (min x B + s) B = min (x + s) B := by
  rcases le_total x B with h | h
  · rw [min_eq_left h]
  · rw [min_eq_right h, min_eq_right (by linarith), min_eq_right (by linarith)]

/-- One landscaping charge from a legal state: the approved amounts grow by
exactly the headroom consumed, the excluded amounts carry the rest under the
over-cap reason, and the running total moves to min(used + amount, 500). -/
theorem landscapingStep_spec (st : RulesState) (d : String) (a : ℚ) (ha : 0 ≤ a)
    (h0 : 0 ≤ st.landscaping_used) (h5 : st.landscaping_used ≤ 500) :
    ∃ app1 exc1,
      landscapingStep st d a =
        { approved := st.approved ++ app1, excluded := st.excluded ++ exc1,
          landscaping_used := min (st.landscaping_used + a) 500, rent_used := st.rent_used } ∧
      entriesSum app1 = min (st.landscaping_used + a) 500 - st.landscaping_used ∧
      entriesSum exc1 = a - (min (st.landscaping_used + a) 500 - st.landscaping_used) ∧
      (∀ e ∈ exc1, e.2.2 = "Over $500 cap") := by
  obtain ⟨ap, ex, lu, ru⟩ := st
  simp only at h0 h5 ⊢
  have hcap : max 0 (min a (500 - lu)) = min a (500 - lu) :=
    max_eq_right (le_min ha (by linarith))
  have hu : lu + min a (500 - lu) = min (lu + a) 500 := add_min_cap lu a 500 ha h5
  rcases lt_or_le 0 (min a (500 - lu)) with hpos | hneg
  · refine ⟨[("Landscaping – " ++ d, min a (500 - lu), "Capped at $500")],
      (if min a (500 - lu) < a then [(d, a - min a (500 - lu), "Over $500 cap")] else []),
      ?_, ?_, ?_, ?_⟩
    · simp only [landscapingStep, hcap]
      rw [if_pos hpos, hu]
    · rw [entriesSum_cons, entriesSum_nil, entryAmount]
      simp only
      linarith [hu]
    · rcases lt_or_le (min a (500 - lu)) a with hlt | hge
      · rw [if_pos hlt, entriesSum_cons, entriesSum_nil, entryAmount]
        simp only
        linarith [hu]
      · have : min a (500 - lu) = a := le_antisymm (min_le_left _ _) hge
        rw [if_neg (by rw [this]; exact lt_irrefl a), entriesSum_nil]
        linarith [hu, this]
    · intro e he
      rcases lt_or_le (min a (500 - lu)) a with hlt | hge
      · rw [if_pos hlt] at he
        rcases List.mem_singleton.mp he with rfl
        rfl
      · rw [if_neg (by
          have : min a (500 - lu) = a := le_antisymm (min_le_left _ _) hge
          rw [this]; exact lt_irrefl a)] at he
        cases he
  · have hmin0 : min a (500 - lu) = 0 := le_antisymm hneg (le_min ha (by linarith))
    have hcap0 : max 0 (min a (500 - lu)) = 0 := by rw [hmin0]; exact max_self 0
    have hfix : min (lu + a) 500 = lu := by rw [← hu, hmin0, add_zero]
    refine ⟨[], [(d, a, "Over $500 cap")], ?_, ?_, ?_, ?_⟩
    · simp only [landscapingStep, hcap0]
      rw [if_neg (lt_irrefl 0), hfix]
      simp
    · rw [entriesSum_nil, hfix]
      ring
    · rw [entriesSum_cons, entriesSum_nil, entryAmount, hfix]
      simp only
      ring
    · intro e he
      rcases List.mem_singleton.mp he with rfl
      rfl

theorem runCharges_cons_ok (r : ℚ) (st st2 : RulesState) (c : Charge) (cs : List Charge)
    (h : processCharge r st c = .ok st2) :
    runCharges r st (c :: cs) = runCharges r st2 cs := by
  rw [runCharges, h]

/-- Running the loop over a list of landscaping charges with nonnegative
amounts: greedy water-filling up to the 500 cap. -/
theorem runCharges_landscaping (r : ℚ) (l : List Charge) :
    ∀ st : RulesState, (∀ c ∈ l, landsOK c = true ∧ 0 ≤ amtOf c) →
    0 ≤ st.landscaping_used → st.landscaping_used ≤ 500 →
    ∃ app2 exc2,
      runCharges r st l = .ok
        { approved := st.approved ++ app2, excluded := st.excluded ++ exc2,
          landscaping_used := min (st.landscaping_used + chargesSum l) 500,
          rent_used := st.rent_used } ∧
      entriesSum app2 = min (st.landscaping_used + chargesSum l) 500 - st.landscaping_used ∧
      entriesSum exc2 =
        chargesSum l - (min (st.landscaping_used + chargesSum l) 500 - st.landscaping_used) ∧
      (∀ e ∈ exc2, e.2.2 = "Over $500 cap") := by
  induction l with
  | nil =>
    intro st _ h0 h5
    refine ⟨[], [], ?_, ?_, ?_, by simp⟩
    · obtain ⟨ap, ex, lu, ru⟩ := st
      simp only at h5 ⊢
      rw [runCharges, chargesSum_nil, add_zero, min_eq_left h5]
      simp
    · rw [entriesSum_nil, chargesSum_nil, add_zero, min_eq_left h5]
      ring
    · rw [entriesSum_nil, chargesSum_nil, add_zero, min_eq_left h5]
      ring
  | cons c cs ih =>
    intro st h h0 h5
    obtain ⟨hc, hca⟩ := h c (List.mem_cons_self c cs)
    have hcs : ∀ x ∈ cs, landsOK x = true ∧ 0 ≤ amtOf x :=
      fun x hx => h x (List.mem_cons_of_mem c hx)
    obtain ⟨app1, exc1, hstep, hs1, hs2, hr1⟩ := landscapingStep_spec st (descOf c) (amtOf c) hca h0 h5
    have h0' : (0 : ℚ) ≤ min (st.landscaping_used + amtOf c) 500 :=
      le_min (add_nonneg h0 hca) (by norm_num)
    have h5' : min (st.landscaping_used + amtOf c) 500 ≤ 500 := min_le_right _ _
    obtain ⟨app2, exc2, hrun, hs1', hs2', hr2⟩ :=
      ih { approved := st.approved ++ app1, excluded := st.excluded ++ exc1,
           landscaping_used := min (st.landscaping_used + amtOf c) 500, rent_used := st.rent_used }
        hcs h0' h5'
    have hS : 0 ≤ chargesSum cs := chargesSum_nonneg cs (fun x hx => (hcs x hx).2)
    have hcol : min (min (st.landscaping_used + amtOf c) 500 + chargesSum cs) 500 =
        min (st.landscaping_used + (amtOf c + chargesSum cs)) 500 := by
      rw [min_cap_collapse _ _ _ hS, add_assoc]
    have hpc : processCharge r st c = .ok
        { approved := st.approved ++ app1, excluded := st.excluded ++ exc1,
          landscaping_used := min (st.landscaping_used + amtOf c) 500,
          rent_used := st.rent_used } := by
      rw [processCharge_eq_ok r st c (landsOK_parts c hc).2.2.2.2,
        processChargeOk_landscaping r st c _ hc, hstep]
    refine ⟨app1 ++ app2, exc1 ++ exc2, ?_, ?_, ?_, ?_⟩
    · rw [runCharges_cons_ok r st _ c cs hpc, hrun, chargesSum_cons]
      simp only at hcol ⊢
      rw [hcol, List.append_assoc, List.append_assoc]
    · rw [entriesSum_append, hs1, hs1', chargesSum_cons]
      simp only at hcol ⊢
      linarith [hcol]
    · rw [entriesSum_append, hs2, hs2', chargesSum_cons]
      simp only at hcol ⊢
      linarith [hcol]
    · intro e he
      rcases List.mem_append.mp he with h | h
      · exact hr1 e h
      · exact hr2 e h

/-- C1: for a charge list made entirely of considered landscaping charges with
nonnegative amounts summing to S, apply_policy_rules approves exactly
min(S, 500), excludes exactly the excess S minus min(S, 500), every excluded
tuple carries reason Over $500 cap, and the approved total is invariant under
every permutation of the list. -/
theorem landscaping_cap_c1 (charges : List Charge) (r : ℚ)
    (h : ∀ c ∈ charges, landsOK c = true ∧ 0 ≤ amtOf c) :
    ∃ app exc tot,
      apply_policy_rules charges r = .ok (app, exc, tot) ∧
      entriesSum app = min (chargesSum charges) 500 ∧
      entriesSum exc = chargesSum charges - min (chargesSum charges) 500 ∧
      (∀ e ∈ exc, e.2.2 = "Over $500 cap") ∧
      (∀ charges2, charges2.Perm charges →
        ∃ app2 exc2 tot2, apply_policy_rules charges2 r = .ok (app2, exc2, tot2) ∧
          entriesSum app2 = entriesSum app) := by
  have core : ∀ l : List Charge, (∀ c ∈ l, landsOK c = true ∧ 0 ≤ amtOf c) →
      ∃ app exc tot, apply_policy_rules l r = .ok (app, exc, tot) ∧
        entriesSum app = min (chargesSum l) 500 ∧
        entriesSum exc = chargesSum l - min (chargesSum l) 500 ∧
        (∀ e ∈ exc, e.2.2 = "Over $500 cap") := by
    intro l hl
    obtain ⟨app2, exc2, hrun, hs1, hs2, hr⟩ :=
      runCharges_landscaping r l initState hl (le_refl 0)
        (by rw [show initState.landscaping_used = (0 : ℚ) from rfl]; norm_num)
    rw [show initState.landscaping_used = 0 from rfl, zero_add] at hrun hs1 hs2
    refine ⟨app2, exc2, round2 (entriesSum app2), ?_, by rw [hs1]; ring,
      by rw [hs2]; ring, hr⟩
    unfold apply_policy_rules
    rw [hrun]
    simp [initState, Except.map]
  obtain ⟨app, exc, tot, happ, hs1, hs2, hr⟩ := core charges h
  refine ⟨app, exc, tot, happ, hs1, hs2, hr, ?_⟩
  intro charges2 hp
  have h2 : ∀ c ∈ charges2, landsOK c = true ∧ 0 ≤ amtOf c :=
    fun c hc => h c (hp.mem_iff.mp hc)
  obtain ⟨app2, exc2, tot2, happ2, hs1', _, _⟩ := core charges2 h2
  have hsum : chargesSum charges2 = chargesSum charges := (hp.map amtOf).sum_eq
  exact ⟨app2, exc2, tot2, happ2, by rw [hs1', hsum, hs1]⟩

/-- C1 witness: two landscaping charges of 300 and 400 at an arbitrary
monthly rent. -/
theorem c1_witness :
    ∃ app exc tot,
      apply_policy_rules [landChargeA, landChargeB] 7 = .ok (app, exc, tot) ∧
      entriesSum app = min (chargesSum [landChargeA, landChargeB]) 500 ∧
      entriesSum exc = chargesSum [landChargeA, landChargeB] -
        min (chargesSum [landChargeA, landChargeB]) 500 ∧
      (∀ e ∈ exc, e.2.2 = "Over $500 cap") ∧
      (∀ charges2, charges2.Perm [landChargeA, landChargeB] →
        ∃ app2 exc2 tot2, apply_policy_rules charges2 7 = .ok (app2, exc2, tot2) ∧
          entriesSum app2 = entriesSum app) :=
  landscaping_cap_c1 [landChargeA, landChargeB] 7 (by decide)

/-! ## Total-approved accounting (C2) -/

theorem entriesSum_cent (l : List Entry)
    (h : ∀ e ∈ l, ∃ n : ℤ, entryAmount e = (n : ℚ) / 100) :
    ∃ m : ℤ, entriesSum l = (m : ℚ) / 100 := by
  induction l with
  | nil => exact ⟨0, by rw [entriesSum_nil]; norm_num⟩
  | cons e es ih =>
    obtain ⟨n, hn⟩ := h e (List.mem_cons_self e es)
    obtain ⟨m, hm⟩ := ih (fun x hx => h x (List.mem_cons_of_mem e hx))
    refine ⟨n + m, ?_⟩
    rw [entriesSum_cons, hn, hm]
    push_cast
    ring

/-- C2 (amended): the returned total_approved always equals
round(sum of approved amounts, 2); this never exceeds the raw approved sum
when every approved amount is a whole number of cents, which is the case the
rounding leaves unchanged. For sub-cent amounts rounding can exceed the sum,
refuting the unconditional inequality of the original claim. -/
theorem total_approved_c2 (charges : List Charge) (r : ℚ) (app exc : List Entry) (tot : ℚ)
    (h : apply_policy_rules charges r = .ok (app, exc, tot)) :
    tot = round2 (entriesSum app) ∧
    ((∀ e ∈ app, ∃ n : ℤ, entryAmount e = (n : ℚ) / 100) → tot ≤ entriesSum app) := by
  unfold apply_policy_rules at h
  cases hrun : runCharges r initState charges with
  | error e => rw [hrun] at h; simp [Except.map] at h
  | ok st =>
    rw [hrun] at h
    simp only [Except.map, Except.ok.injEq, Prod.mk.injEq] at h
    obtain ⟨h1, _, h3⟩ := h
    constructor
    · rw [← h3, h1]
    · intro hcent
      obtain ⟨m, hm⟩ := entriesSum_cent app hcent
      rw [← h3, h1, hm, round2_cent]

/-- C2 counterexample: a single covered utilities charge of 0.0451 rounds the
total up to 0.05, strictly above the sum of the approved amounts. -/
theorem c2_counterexample :
    apply_policy_rules [centCharge] 0 =
      .ok ([("Unpaid Utilities – water bill", (451 : ℚ) / 10000, "Covered")], [],
        (5 : ℚ) / 100) ∧
    entriesSum [("Unpaid Utilities – water bill", (451 : ℚ) / 10000, "Covered")] <
      (5 : ℚ) / 100 := by
  constructor
  · have hpc : processCharge 0 initState centCharge =
        .ok { initState with approved := initState.approved ++
          [("Unpaid Utilities – water bill", (451 : ℚ) / 10000, "Covered")] } := by
      rw [processCharge_eq_ok 0 initState centCharge (by decide)]
      have h1 : include_only_unpaid centCharge = true := by decide
      have h2 : isHardExcluded centCharge = false := by decide
      have h3 : isNormalWear centCharge = false := by decide
      have h4 : normCat centCharge = "unpaid_utilities" := by decide
      have h5 : descOf centCharge = "water bill" := by decide
      have h6 : amtOf centCharge = (451 : ℚ) / 10000 := rfl
      unfold processChargeOk
      rw [h1, h2, h3, h4, h5, h6]
      simp
    have hround : round2 ((451 : ℚ) / 10000) = (5 : ℚ) / 100 := by
      have hf : ⌊(451 : ℚ) / 10000 * 100⌋ = 4 := by
        rw [Int.floor_eq_iff]
        constructor <;> norm_num
      rw [round2, roundHalfEven]
      norm_num [hf]
    unfold apply_policy_rules
    rw [runCharges_cons_ok 0 initState _ centCharge [] hpc, runCharges]
    simp only [Except.map, initState, List.nil_append]
    rw [show entriesSum [("Unpaid Utilities – water bill", (451 : ℚ) / 10000, "Covered")] =
      (451 : ℚ) / 10000 by rw [entriesSum_cons, entriesSum_nil, entryAmount]; ring]
    rw [hround]
  · rw [entriesSum_cons, entriesSum_nil, entryAmount]
    norm_num

/-- C2 witness: a list with one paid charge; total is 0, the rounded sum of
the empty approved list. -/
theorem c2_witness :
    (0 : ℚ) = round2 (entriesSum []) ∧
    ((∀ e ∈ ([] : List Entry), ∃ n : ℤ, entryAmount e = (n : ℚ) / 100) →
      (0 : ℚ) ≤ entriesSum []) :=
  total_approved_c2 [paidCharge] 7 [] [("old invoice", 50, "Paid/Not overdue")] 0 (by
    have hpc : processCharge 7 initState paidCharge =
        .ok { initState with excluded := initState.excluded ++
          [("old invoice", 50, "Paid/Not overdue")] } := by
      rw [processCharge_eq_ok 7 initState paidCharge (by decide),
        processChargeOk_paid 7 initState paidCharge _ (by decide)]
      rw [show descOf paidCharge = "old invoice" from rfl, show amtOf paidCharge = 50 from rfl]
    have hround : round2 (entriesSum []) = 0 := by
      have h := round2_cent 0
      norm_num at h
      rw [entriesSum_nil, h]
    unfold apply_policy_rules
    rw [runCharges_cons_ok 7 initState _ paidCharge [] hpc, runCharges]
    simp only [Except.map, initState, List.nil_append]
    rw [show entriesSum ([] : List Entry) = 0 from rfl] at hround ⊢
    rw [hround])

/-! ## Sorting lemmas for the documents gate -/

theorem strInsert_mem (y x : String) (l : List String) :
    y ∈ strInsert x l ↔ y = x ∨ y ∈ l := by
  induction l with
  | nil => simp [strInsert]
  | cons z zs ih =>
    rw [strInsert]
    split
    · simp [List.mem_cons]
    · rw [List.mem_cons, ih, List.mem_cons]
      tauto

theorem strSort_mem (y : String) (l : List String) : y ∈ strSort l ↔ y ∈ l := by
  induction l with
  | nil => exact Iff.rfl
  | cons x xs ih => rw [strSort, strInsert_mem, ih, List.mem_cons]

theorem strSort_sorted_eq (l : List String)
    (h : List.Pairwise (fun a b => strLtB a b = true) l) : strSort l = l := by
  induction l with
  | nil => rfl
  | cons x xs ih =>
    rw [strSort, ih ((List.pairwise_cons.mp h).2)]
    cases xs with
    | nil => rfl
    | cons y ys =>
      rw [strInsert, if_pos ((List.pairwise_cons.mp h).1 y (List.mem_cons_self y ys))]

/-- C6: the gate approves exactly when all four required documents are present
and both ledger flags hold; the missing-documents output contains exactly the
absent required documents, sorted strictly lexicographically (so every unmet
document is reported, with no short-circuit); Status is Approved exactly when
approved; and the two source copies of validate_gate agree on all inputs. -/
theorem validate_gate_c6 (docs : String → Bool) (lg : LedgerFlags) :
    ((validate_gate docs lg).1 = true ↔
      ((∀ d ∈ REQ_DOCS, docs d = true) ∧ lg.first_month_rent_paid = true ∧
        lg.first_month_sdi_premium_paid = true)) ∧
    (∀ d, d ∈ (validate_gate docs lg).2.missing_documents ↔
      (d ∈ REQ_DOCS ∧ docs d = false)) ∧
    List.Pairwise (fun a b => strLtB a b = true) (validate_gate docs lg).2.missing_documents ∧
    ((validate_gate docs lg).2.status = "Approved" ↔ (validate_gate docs lg).1 = true) ∧
    ledger_validate_gate docs lg = validate_gate docs lg := by
  have hmiss : (validate_gate docs lg).2.missing_documents =
      strSort (REQ_DOCS.filter (fun d => !(docs d))) := rfl
  have hfst : (validate_gate docs lg).1 =
      ((strSort (REQ_DOCS.filter (fun d => !(docs d)))).isEmpty &&
        lg.first_month_rent_paid && lg.first_month_sdi_premium_paid) := rfl
  have hstat : (validate_gate docs lg).2.status =
      (if ((strSort (REQ_DOCS.filter (fun d => !(docs d)))).isEmpty &&
          lg.first_month_rent_paid && lg.first_month_sdi_premium_paid) = true
        then "Approved" else "Declined") := rfl
  have hmem : ∀ d, d ∈ (validate_gate docs lg).2.missing_documents ↔
      (d ∈ REQ_DOCS ∧ docs d = false) := by
    intro d
    rw [hmiss, strSort_mem, List.mem_filter]
    simp [Bool.not_eq_true']
  refine ⟨?_, hmem, ?_, ?_, rfl⟩
  · rw [hfst]
    simp only [Bool.and_eq_true, List.isEmpty_iff]
    constructor
    · rintro ⟨⟨hempty, hrent⟩, hsdi⟩
      refine ⟨?_, hrent, hsdi⟩
      intro d hd
      cases hval : docs d with
      | true => rfl
      | false =>
        have hdmem : d ∈ (validate_gate docs lg).2.missing_documents :=
          (hmem d).mpr ⟨hd, hval⟩
        rw [hmiss, hempty] at hdmem
        exact absurd hdmem (List.not_mem_nil d)
    · rintro ⟨hall, hrent, hsdi⟩
      refine ⟨⟨?_, hrent⟩, hsdi⟩
      rw [List.eq_nil_iff_forall_not_mem]
      intro d hd
      rw [← hmiss] at hd
      obtain ⟨hdreq, hdf⟩ := (hmem d).mp hd
      have htrue := hall d hdreq
      rw [hdf] at htrue
      exact Bool.false_ne_true htrue
  · rw [hmiss]
    have hall : List.Pairwise (fun a b => strLtB a b = true) REQ_DOCS := by decide
    have hsub : List.Pairwise (fun a b => strLtB a b = true)
        (REQ_DOCS.filter (fun d => !(docs d))) :=
      List.Pairwise.sublist (List.filter_sublist REQ_DOCS) hall
    rw [strSort_sorted_eq _ hsub]
    exact hsub
  · rw [hstat, hfst]
    cases hb : ((strSort (REQ_DOCS.filter (fun d => !(docs d)))).isEmpty &&
        lg.first_month_rent_paid && lg.first_month_sdi_premium_paid) <;> simp

/-! ## Ledger scan characterisation -/

theorem strictScan_found (hints : List String) (lines : List String) (st : FoundState)
    (h : st.found = true) : strictScan hints lines st = st := by
  induction lines with
  | nil => rfl
  | cons line rest ih =>
    rw [strictScan, if_neg (by simp [h])]
    exact ih

theorem phase1_eq (lines : List String) : ∀ r s : FoundState,
    phase1 lines r s = (strictScan RENT_HINTS lines r, strictScan SDI_HINTS lines s) := by
  induction lines with
  | nil => intro r s; rfl
  | cons line rest ih =>
    intro r s
    have hstepR : strictScan RENT_HINTS (line :: rest) r = strictScan RENT_HINTS rest
        (if !r.found && strictMatch RENT_HINTS line then
          { found := true, ev := normalize_text line } else r) := rfl
    have hstepS : strictScan SDI_HINTS (line :: rest) s = strictScan SDI_HINTS rest
        (if !s.found && strictMatch SDI_HINTS line then
          { found := true, ev := normalize_text line } else s) := rfl
    rw [hstepR, hstepS]
    show (if ((if !r.found && strictMatch RENT_HINTS line then
            ({ found := true, ev := normalize_text line } : FoundState) else r).found &&
          (if !s.found && strictMatch SDI_HINTS line then
            ({ found := true, ev := normalize_text line } : FoundState) else s).found) = true then
        ((if !r.found && strictMatch RENT_HINTS line then
            ({ found := true, ev := normalize_text line } : FoundState) else r),
         (if !s.found && strictMatch SDI_HINTS line then
            ({ found := true, ev := normalize_text line } : FoundState) else s))
      else phase1 rest
        (if !r.found && strictMatch RENT_HINTS line then
          ({ found := true, ev := normalize_text line } : FoundState) else r)
        (if !s.found && strictMatch SDI_HINTS line then
          ({ found := true, ev := normalize_text line } : FoundState) else s)) = _
    generalize (if !r.found && strictMatch RENT_HINTS line then
      ({ found := true, ev := normalize_text line } : FoundState) else r) = r2
    generalize (if !s.found && strictMatch SDI_HINTS line then
      ({ found := true, ev := normalize_text line } : FoundState) else s) = s2
    by_cases hb : (r2.found && s2.found) = true
    · rw [if_pos hb]
      simp only [Bool.and_eq_true] at hb
      rw [strictScan_found _ _ _ hb.1, strictScan_found _ _ _ hb.2]
    · rw [if_neg hb]
      exact ih r2 s2

theorem strictScan_char (hints : List String) (lines : List String) :
    ∀ ev0 : String, strictScan hints lines { found := false, ev := ev0 } =
      (match lines.find? (strictMatch hints) with
       | some l => { found := true, ev := normalize_text l }
       | none => { found := false, ev := ev0 }) := by
  induction lines with
  | nil => intro ev0; rfl
  | cons line rest ih =>
    intro ev0
    by_cases hm : strictMatch hints line = true
    · rw [strictScan, if_pos (by simp [hm]), strictScan_found _ _ _ rfl,
        List.find?_cons_of_pos _ hm]
    · have hm' : strictMatch hints line = false := by
        cases hv : strictMatch hints line
        · rfl
        · exact absurd hv hm
      rw [strictScan, if_neg (by simp [hm']), ih ev0, List.find?_cons_of_neg _ hm]

theorem scanFamily (hints : List String) (lines : List String) :
    fallbackScan hints lines (strictScan hints lines { found := false, ev := "" }) =
      { found := ((lines.find? (strictMatch hints)).isSome ||
          (lines.find? (fun l => lineMatches l hints)).isSome),
        ev := (match lines.find? (strictMatch hints) with
          | some l => normalize_text l
          | none => match lines.find? (fun l => lineMatches l hints) with
            | some l => normalize_text l
            | none => "") } := by
  rw [strictScan_char]
  cases h1 : lines.find? (strictMatch hints) with
  | some l => simp [fallbackScan]
  | none =>
    simp only [fallbackScan]
    cases h2 : lines.find? (fun l => lineMatches l hints) with
    | some l => simp
    | none => simp

/-- Shared evaluation of extract_ledger_flags: for each hint family the flag
is set when either phase finds a line, and the evidence is the normalized
first strictly matching line, else the normalized first hint line, else
empty. -/
theorem extract_flags_eval (text : String) :
    extract_ledger_flags text =
      { first_month_rent_paid := (((processedLines text).find? (strictMatch RENT_HINTS)).isSome ||
          ((processedLines text).find? (fun l => lineMatches l RENT_HINTS)).isSome),
        first_month_rent_evidence :=
          (match (processedLines text).find? (strictMatch RENT_HINTS) with
           | some l => normalize_text l
           | none =>
             match (processedLines text).find? (fun l => lineMatches l RENT_HINTS) with
             | some l => normalize_text l
             | none => ""),
        first_month_sdi_premium_paid :=
          (((processedLines text).find? (strictMatch SDI_HINTS)).isSome ||
            ((processedLines text).find? (fun l => lineMatches l SDI_HINTS)).isSome),
        first_month_sdi_premium_paid_evidence :=
          (match (processedLines text).find? (strictMatch SDI_HINTS) with
           | some l => normalize_text l
           | none =>
             match (processedLines text).find? (fun l => lineMatches l SDI_HINTS) with
             | some l => normalize_text l
             | none => "") } := by
  simp only [extract_ledger_flags, phase1_eq]
  rw [scanFamily, scanFamily]

/-- C7: the two-phase ledger scan, characterised: phase 1 records as evidence
the whitespace-normalized first line carrying a hint plus a money token or a
payment word; phase 2 falls back, for a family still unfound, to the first
line merely containing a hint; the concrete ledger line of the spec yields
the rent flag with itself as evidence. -/
theorem two_phase_scan_c7 :
    (∀ text : String,
      extract_ledger_flags text =
        { first_month_rent_paid :=
            (((processedLines text).find? (strictMatch RENT_HINTS)).isSome ||
              ((processedLines text).find? (fun l => lineMatches l RENT_HINTS)).isSome),
          first_month_rent_evidence :=
            (match (processedLines text).find? (strictMatch RENT_HINTS) with
             | some l => normalize_text l
             | none =>
               match (processedLines text).find? (fun l => lineMatches l RENT_HINTS) with
               | some l => normalize_text l
               | none => ""),
          first_month_sdi_premium_paid :=
            (((processedLines text).find? (strictMatch SDI_HINTS)).isSome ||
              ((processedLines text).find? (fun l => lineMatches l SDI_HINTS)).isSome),
          first_month_sdi_premium_paid_evidence :=
            (match (processedLines text).find? (strictMatch SDI_HINTS) with
             | some l => normalize_text l
             | none =>
               match (processedLines text).find? (fun l => lineMatches l SDI_HINTS) with
               | some l => normalize_text l
               | none => "") }) ∧
    extract_ledger_flags "Rent: $1200 paid on 1/1" =
      { first_month_rent_paid := true,
        first_month_rent_evidence := "Rent: $1200 paid on 1/1",
        first_month_sdi_premium_paid := false,
        first_month_sdi_premium_paid_evidence := "" } :=
  ⟨extract_flags_eval, by decide⟩

theorem strictMatch_imp (hints : List String) (l : String)
    (h : strictMatch hints l = true) : lineMatches l hints = true := by
  simp only [strictMatch, Bool.and_eq_true] at h
  exact h.1

theorem flag_eq_any (hints : List String) (lines : List String) :
    (((lines.find? (strictMatch hints)).isSome ||
      (lines.find? (fun l => lineMatches l hints)).isSome)) =
      lines.any (fun l => lineMatches l hints) := by
  cases h2 : lines.find? (fun l => lineMatches l hints) with
  | some l =>
    have hmem := List.mem_of_find?_eq_some h2
    have hp := List.find?_some h2
    have hany : lines.any (fun l => lineMatches l hints) = true :=
      List.any_eq_true.mpr ⟨l, hmem, hp⟩
    rw [hany]
    simp
  | none =>
    have hnone : ∀ x ∈ lines, ¬ lineMatches x hints = true :=
      fun x hx => by simpa using List.find?_eq_none.mp h2 x hx
    have h1 : lines.find? (strictMatch hints) = none := by
      rw [List.find?_eq_none]
      intro x hx hstrict
      exact hnone x hx (strictMatch_imp hints x hstrict)
    have hany : lines.any (fun l => lineMatches l hints) = false := by
      cases hv : lines.any (fun l => lineMatches l hints)
      · rfl
      · obtain ⟨x, hx, hpx⟩ := List.any_eq_true.mp hv
        exact absurd hpx (hnone x hx)
    rw [h1, hany]
    rfl

/-- C10: the rent and SDI flags of extract_ledger_flags are exactly the tests
that some non-empty line contains a hint phrase; the money-token and payment
word corroboration of phase 1 can only influence which line becomes the
evidence string, never the flags. -/
theorem hint_flags_c10 (text : String) :
    (extract_ledger_flags text).first_month_rent_paid =
      (processedLines text).any (fun l => lineMatches l RENT_HINTS) ∧
    (extract_ledger_flags text).first_month_sdi_premium_paid =
      (processedLines text).any (fun l => lineMatches l SDI_HINTS) := by
  rw [extract_flags_eval]
  exact ⟨flag_eq_any RENT_HINTS _, flag_eq_any SDI_HINTS _⟩
